import Mathlib

/-!
Verification of the transaction submission and nonce-coordination engine of
the eth-sci library.

This file shallowly embeds the relevant parts of the JavaScript source
(`src/lib/modules/transactionManager.js`, `src/lib/interface/interface.js`,
`src/utils.js`) as executable Lean definitions and proves, or refutes, the
testable properties stated for the engine.

Modeling conventions, stated once here:

* Addresses are modeled as `Nat` values, already in canonical (checksummed)
  form; `toChecksum` is the identity on that representation and is therefore
  not written out.  A JS address is a non-empty string, hence always truthy.
* JS numbers that the engine uses as nonces, counts and ids take integer
  values; they are modeled as `Nat`.  Where the source relies on JS
  falsiness of `0`/`undefined`/`null` (the `x || y` idiom), the model uses
  `Option Nat` together with the explicit `jsOr` below, which treats both
  `none` and `some 0` as absent, exactly as JS does.
* Error objects are observed by the engine only through
  `message.includes(pat)` for four fixed substring patterns.  An error
  message is therefore modeled by the vector of those four Boolean
  outcomes (`ErrMsg`).
* Asynchronous control flow is modeled by explicit sequential composition.
  The per-address mutex of `getNonce` (from the `await-semaphore`
  dependency) guarantees in the source that, for one address, the critical
  sections [select nonce ... record it on the record ... release] of
  concurrent callers execute serially; the model expresses a critical
  section as a pure state transformer (`submitClaim`), and concurrency
  claims become statements about sequences of such sections.  External
  inputs (the network transaction count, the outcome of the ledger
  round-trip, the results of the user-supplied `verify` predicate, the
  submitted-count observed at each queue re-check) are supplied as
  explicit oracle arguments.
* The ledger round-trip receipt bookkeeping (`gasUsed` statistics), the
  timestamps (`time`, `lastUpdate`, `duration`) and the `deploy` special
  case are not modeled; no claim under consideration depends on them.
* Functions produce, alongside their results, traces of named events
  (`SubmitEvent`, `RetryEvent`) recording the order of the observable
  steps; temporal claims are read off these traces.
-/

namespace EthSci

/-! ## Definitions -/

/-- JS `x || y` for `x : Option Nat`: both `undefined`/`null` (`none`) and
`0` (`some 0`) are falsy, so they fall through to the default. -/
def jsOr (x : Option Nat) (d : Nat) : Nat :=
  match x with
  | some n => if n = 0 then d else n
  | none => d

/-- Truthiness of a JS id value (`if (id) ...`): present and non-zero. -/
def idTruthy (x : Option Nat) : Bool :=
  match x with
  | some n => n != 0
  | none => false

/-! ### `FixedLengthArray` (src/utils.js)

Source `FixedLengthArray(lengthLimit, unique)` returns a JS array whose
`push` (`add` when `unique`) filters out values already present, dedups
the arguments preserving first occurrences (`[...new Set(args)]`), shifts
one element from the front per pushed argument once the length limit has
been reached (`_truncate`), and then appends.  The element type is
instantiated at `Nat`, matching its only use in the engine (the per-address
nonce exclusion sets). -/

/-- Helper of `dedupFirst`: drop values already seen, in one pass. -/
def dedupFirstGo (seen : List Nat) : List Nat → List Nat
  | [] => []
  | x :: xs => if x ∈ seen then dedupFirstGo seen xs else x :: dedupFirstGo (x :: seen) xs

/-- JS `[...new Set(args)]`: remove duplicates keeping the first
occurrence of each value. -/
def dedupFirst (l : List Nat) : List Nat := dedupFirstGo [] l

/-- Source `array._truncate(...args)`: once at (or beyond) the length
limit, shift one element from the front for each argument about to be
pushed.  A limit of `0` is falsy in JS and disables truncation. -/
def flaTruncate (lengthLimit : Nat) (arr : List Nat) (args : List Nat) : List Nat :=
  if lengthLimit ≠ 0 ∧ lengthLimit ≤ arr.length ∧ args ≠ [] then
    arr.drop args.length
  else arr

/-- Source `array.add(...args)`: filter out values already present, dedup
the rest (first occurrences), truncate, then append. -/
def flaAdd (lengthLimit : Nat) (arr : List Nat) (args : List Nat) : List Nat :=
  let args2 := dedupFirst (args.filter (fun item => item ∉ arr))
  flaTruncate lengthLimit arr args2 ++ args2

/-- Source `array.push(...args)`: defer to `add` when the array was
created `unique`, else truncate and append. -/
def flaPush (lengthLimit : Nat) (unique : Bool) (arr : List Nat) (args : List Nat) : List Nat :=
  if unique then flaAdd lengthLimit arr args
  else flaTruncate lengthLimit arr args ++ args

/-! ### Transaction records and the manager state -/

/-- Lifecycle status of a transaction record. -/
inductive TxStatus where
  | pending
  | submitted
  | confirmed
  | failed
deriving DecidableEq, Repr

/-- One transaction record / `txMeta` object.  A freshly built
`TransactionObject` has no `id`, no `status` and no nonce; `nonce = 0`
doubles for the JS `undefined` in the one place the source reads an
unassigned nonce (the filter `tx.nonce > 0` rejects both identically). -/
structure TxRecord where
  id : Option Nat := none
  /-- The originating address (`from` in the source). -/
  fromAddr : Nat
  nonce : Nat := 0
  /-- Source `options.nonce`: the caller-supplied nonce, if any. -/
  optNonce : Option Nat := none
  /-- Source `options.gasPrice`; exact integer/rational arithmetic stands
  in for JS doubles. -/
  optGasPrice : Int := 0
  status : Option TxStatus := none
deriving DecidableEq, Repr

/-- An error message, abstracted by the outcome of the four
`message.includes(...)` tests the engine performs on it. -/
structure ErrMsg where
  /-- Outcome of `message.includes("nonce too low")`. -/
  nonceTooLow : Bool := false
  /-- Outcome of `message.includes("Transaction was not mined within")`. -/
  notMinedWithin : Bool := false
  /-- Outcome of `message.includes("known transaction")`. -/
  knownTransaction : Bool := false
  /-- Outcome of `message.includes("replacement transaction underpriced")`. -/
  replacementUnderpriced : Bool := false
deriving DecidableEq, Repr

/-- The state owned by the `TransactionManager` singleton: the record
store `tx`, the per-address nonce exclusion sets `_nonceInUse` (the
contents of the `FixedLengthArray(200, true)` per address, `none` while
absent), the id counter and the retry counter.  The mutex map `_lockMap`
carries no data beyond serialization and is represented by the execution
model rather than by state. -/
structure TxManagerState where
  tx : List TxRecord := []
  nonceInUse : Nat → Option (List Nat) := fun _ => none
  idCounter : Nat
  retries : Nat := 0

/-- JS `Number.MAX_SAFE_INTEGER`. -/
def maxSafeInteger : Nat := 9007199254740991

/-- A fresh manager as built by the constructor: empty store, empty
exclusion-set map, a caller-chosen (in the source, random) id counter. -/
def mkManager (idCounter : Nat) : TxManagerState :=
  { tx := [], nonceInUse := fun _ => none, idCounter := idCounter, retries := 0 }

/-- Source `_filterTxByStatus(address, status)`: filter the store by
status, and additionally by `from` when an address is given. -/
def _filterTxByStatus (st : TxManagerState) (address : Option Nat) (status : TxStatus) :
    List TxRecord :=
  st.tx.filter fun t =>
    t.status == some status &&
      (match address with
       | some a => t.fromAddr == a
       | none => true)

def getFailedTransactions (st : TxManagerState) (address : Option Nat := none) : List TxRecord :=
  _filterTxByStatus st address TxStatus.failed

def getConfirmedTransactions (st : TxManagerState) (address : Option Nat := none) : List TxRecord :=
  _filterTxByStatus st address TxStatus.confirmed

def getPendingTransactions (st : TxManagerState) (address : Option Nat := none) : List TxRecord :=
  _filterTxByStatus st address TxStatus.pending

def getSubmittedTransactions (st : TxManagerState) (address : Option Nat := none) : List TxRecord :=
  _filterTxByStatus st address TxStatus.submitted

/-- Source `_getHighestNonce(txList)`:
`nonces.reduce((a, b) => Math.max(a, b))`, `null` on an empty list. -/
def _getHighestNonce (txList : List TxRecord) : Option Nat :=
  match txList.map (fun t => t.nonce) with
  | [] => none
  | n :: ns => some (ns.foldl max n)

/-- Source `_getHighestLocallyConfirmed(address)`: one above the highest
nonce among the confirmed records of this address, `0` if there are
none. -/
def _getHighestLocallyConfirmed (st : TxManagerState) (address : Nat) : Nat :=
  match _getHighestNonce (getConfirmedTransactions st (some address)) with
  | some highest => highest + 1
  | none => 0

/-- The loop condition of `_getHighestContinuousFrom`:
`nonces.includes(h) || (address && inUse && inUse.includes(h))`.  The
address, a non-empty string in the source, is always truthy. -/
def nonceBlocked (nonces : List Nat) (inUse : Option (List Nat)) (n : Nat) : Bool :=
  decide (n ∈ nonces) ||
    (match inUse with
     | some l => decide (n ∈ l)
     | none => false)

/-- The `while (...) highest++` scan: increment while the predicate
holds.  Fuel makes the recursion structural; `scanWhile_false` below
shows the fuel used by `_getHighestContinuousFrom` always suffices. -/
def scanWhile (p : Nat → Bool) : Nat → Nat → Nat
  | 0, start => start
  | fuel + 1, start => if p start then scanWhile p fuel (start + 1) else start

/-- Source `_getHighestContinuousFrom(txList, startPoint, address)`: the
first value at or above `startPoint` that is neither among the nonces of
`txList` nor in the exclusion set of the address. -/
def _getHighestContinuousFrom (st : TxManagerState) (txList : List TxRecord)
    (startPoint : Nat) (address : Nat) : Nat :=
  let nonces := txList.map (fun t => t.nonce)
  let inUse := st.nonceInUse address
  scanWhile (nonceBlocked nonces inUse) (nonces.length + (inUse.getD []).length + 1) startPoint

/-- Source `getNonce(address, w3)`, the body of the per-address critical
section.  The two network reads (`getBlock`, `getTransactionCount`) are
summarized by the oracle argument `networkNonce`; the returned value is
`nextNonce`.  The source applies `... || 0` to `localNonceResult`, which
is the identity on numbers and is dropped. -/
def getNonce (st : TxManagerState) (address : Nat) (networkNonce : Nat) : Nat :=
  let highestLocallyConfirmed := _getHighestLocallyConfirmed st address
  let highestSuggested := max networkNonce highestLocallyConfirmed
  let submittedTxs := getSubmittedTransactions st (some address)
  let pendingTxs := (getPendingTransactions st (some address)).filter fun tx => tx.nonce > 0
  let localNonceResult :=
    _getHighestContinuousFrom st (submittedTxs ++ pendingTxs) highestSuggested address
  max networkNonce localNonceResult

/-- The lower bound named by the monotonicity property, written from the
words of the specification: one above the highest nonce among the
confirmed records of the address, `0` when it has none.  Compared below
against the quantity the code actually uses. -/
def specConfirmedFloor (st : TxManagerState) (address : Nat) : Nat :=
  match (st.tx.filter fun t =>
      t.status == some TxStatus.confirmed && t.fromAddr == address).map (fun t => t.nonce) with
  | [] => 0
  | n :: ns => ns.foldl max n + 1

/-! ### Store operations -/

/-- JS `Array.prototype.findIndex`, with `-1` modeled as `none`. -/
def findIndex (p : α → Bool) : List α → Option Nat
  | [] => none
  | x :: xs => if p x then some 0 else (findIndex p xs).map (fun i => i + 1)

/-- Source `updateTx(txMeta, status)`: set the status (and, in the
source, the timestamps) on the meta object, locate the stored record with
the same id, and copy every field of the meta onto it — with total record
fields this is replacement.  When no record matches, `findIndex` yields
`-1` and the JS write `this.tx[-1][key] = ...` throws a `TypeError`; that
crash is modeled as `none`.  The mutated meta object is returned
alongside the new store state, standing in for in-place mutation. -/
def updateTx (st : TxManagerState) (txMeta : TxRecord) (status : TxStatus) :
    Option (TxManagerState × TxRecord) :=
  match findIndex (fun t => t.id == txMeta.id) st.tx with
  | some i =>
    some ({ st with tx := st.tx.set i { txMeta with status := some status } },
      { txMeta with status := some status })
  | none => none

/-- Source `_createRandomId()`: reduce the counter modulo
`MAX_SAFE_INTEGER`, return it, and leave the counter one above the
returned value. -/
def _createRandomId (st : TxManagerState) : Nat × TxManagerState :=
  let c := st.idCounter % maxSafeInteger
  (c, { st with idCounter := c + 1 })

/-- Source `addTx(txMeta)` (the source first deletes `txHash`/`data` and
defaults the timestamp; neither is a modeled field).  When the meta
carries a truthy id the source fetches `getFilteredTxList({ id })` — an
array, hence always truthy in JS — and unconditionally takes the update
branch, which crashes if no record matches.  Only a falsy id reaches the
allocation branch. -/
def addTx (st : TxManagerState) (txMeta : TxRecord) : Option (TxManagerState × TxRecord) :=
  if idTruthy txMeta.id then
    updateTx st txMeta TxStatus.pending
  else
    let idSt := _createRandomId st
    let meta := { txMeta with id := some idSt.1 }
    some ({ idSt.2 with tx := idSt.2.tx ++ [meta] }, meta)

/-! ### Error classification and the queue governor -/

/-- The disjunction of the four stuck-nonce message tests in
`_checkError`. -/
def isStuckNonceMsg (m : ErrMsg) : Bool :=
  m.nonceTooLow || m.notMinedWithin || m.knownTransaction || m.replacementUnderpriced

/-- Source `_checkError(err, address, txMeta)` acting on the
`_nonceInUse` map: on a stuck-nonce message, create the
`FixedLengthArray(200, true)` for the address if absent and push the
nonce of the record onto it. -/
def _checkError (nonceInUse : Nat → Option (List Nat)) (err : ErrMsg)
    (address : Nat) (nonce : Nat) : Nat → Option (List Nat) :=
  if isStuckNonceMsg err then
    fun a =>
      if a = address then some (flaPush 200 true ((nonceInUse address).getD []) [nonce])
      else nonceInUse a
  else nonceInUse

/-- Observable steps of one `submitTx` write submission, in execution
order. -/
inductive SubmitEvent where
  /-- The `addTx(txMeta)` call. -/
  | addTxStep
  /-- The nonce coordinator returned `nextNonce`. -/
  | nonceAllocated (nonce : Nat)
  /-- The queue governor observed this many submitted records. -/
  | queueCheck (count : Nat)
  /-- The queue governor slept for this many seconds. -/
  | queueSleep (seconds : Nat)
  /-- The record transitioned to `submitted` carrying this nonce. -/
  | markedSubmitted (nonce : Nat)
  /-- The signed call was handed to the ledger client. -/
  | dispatched
deriving DecidableEq, Repr

/-- Source `awaitLimit` of `_waitQueue`. -/
def awaitLimit : Nat := 100

/-- Source `awaitTime` (seconds) of `_waitQueue`. -/
def awaitTime : Nat := 60

/-- The `while` loop of `_waitQueue`: sleep, then re-read the
submitted-count.  The successive observations are supplied by the oracle
list `recounts`; the Boolean reports whether a count below the limit was
reached within the supplied observations (the source would keep polling
forever). -/
def waitQueueGo : List Nat → List SubmitEvent × Bool
  | [] => ([], false)
  | r :: rs =>
    if awaitLimit ≤ r then
      (SubmitEvent.queueSleep awaitTime :: SubmitEvent.queueCheck r :: (waitQueueGo rs).1,
        (waitQueueGo rs).2)
    else ([SubmitEvent.queueSleep awaitTime, SubmitEvent.queueCheck r], true)

/-- Source `_waitQueue()`: read the submitted-count once; while it is at
or above the limit, sleep `awaitTime` seconds and re-read it. -/
def _waitQueue (awaiting : Nat) (recounts : List Nat) : List SubmitEvent × Bool :=
  if awaitLimit ≤ awaiting then
    (SubmitEvent.queueCheck awaiting :: (waitQueueGo recounts).1, (waitQueueGo recounts).2)
  else ([SubmitEvent.queueCheck awaiting], true)

/-! ### The write path of `submitTx` -/

/-- Steps (a)-(d) of the `submitTx` write path, exactly the part executed
while the per-address nonce lock is held: `addTx`, `getNonce`,
`_waitQueue`, then `options.nonce = options.nonce || nextNonce;
txMeta.nonce = options.nonce; updateTx(txMeta, "submitted")`.  The lock
is released only after the record has been marked `submitted`.  Returns
the trace, and on success the new state, the updated record and the
`nextNonce` value the nonce coordinator returned.  `none` stands for a
crash of the store update or for a queue wait that never observed a count
below the limit. -/
def submitClaim (st : TxManagerState) (txMeta : TxRecord) (networkNonce : Nat)
    (recounts : List Nat) : List SubmitEvent × Option (TxManagerState × TxRecord × Nat) :=
  match addTx st txMeta with
  | none => ([SubmitEvent.addTxStep], none)
  | some (st1, meta1) =>
    let nextNonce := getNonce st1 meta1.fromAddr networkNonce
    let wq := _waitQueue (getSubmittedTransactions st1 none).length recounts
    let evts := SubmitEvent.addTxStep :: SubmitEvent.nonceAllocated nextNonce :: wq.1
    if wq.2 then
      match updateTx st1
          { meta1 with
            optNonce := some (jsOr meta1.optNonce nextNonce),
            nonce := jsOr meta1.optNonce nextNonce }
          TxStatus.submitted with
      | none => (evts, none)
      | some (st2, meta3) =>
        (evts ++ [SubmitEvent.markedSubmitted (jsOr meta1.optNonce nextNonce)],
          some (st2, meta3, nextNonce))
    else (evts, none)

/-- The status `_finalizeTx` settles on: `err ? "failed" : "confirmed"`. -/
def settledStatus (err : Option ErrMsg) : TxStatus :=
  match err with
  | some _ => TxStatus.failed
  | none => TxStatus.confirmed

/-- Source `_finalizeTx(txMeta, err)`: transition to `failed` on an
error, else to `confirmed`. -/
def _finalizeTx (st : TxManagerState) (txMeta : TxRecord) (err : Option ErrMsg) :
    Option (TxManagerState × TxRecord) :=
  updateTx st txMeta (settledStatus err)

/-- Source `submitTx(obj, txMeta, defer, path)`, write (`send`) kind: the
locked section `submitClaim`, then the lock release and the ledger
round-trip, whose outcome is supplied by the oracle `outcome` (`none` for
a receipt, `some msg` for an error event).  On an error the handler runs
`_checkError`, then `_finalizeTx` settles the record.  The `call` kind
performs no state change and is not modeled; receipt gas bookkeeping and
the `deploy` special case are omitted as claim-irrelevant. -/
def submitTx (st : TxManagerState) (txMeta : TxRecord) (networkNonce : Nat)
    (recounts : List Nat) (outcome : Option ErrMsg) :
    List SubmitEvent × Option (TxManagerState × TxRecord × Option ErrMsg) :=
  match submitClaim st txMeta networkNonce recounts with
  | (evts, none) => (evts, none)
  | (evts, some (st2, meta2, _)) =>
    let st3 :=
      match outcome with
      | some e => { st2 with nonceInUse := _checkError st2.nonceInUse e meta2.fromAddr meta2.nonce }
      | none => st2
    match _finalizeTx st3 meta2 outcome with
    | none => (evts ++ [SubmitEvent.dispatched], none)
    | some (st4, meta4) => (evts ++ [SubmitEvent.dispatched], some (st4, meta4, outcome))

/-! ### The retry coordinator (`sendWithRetry`, interface.js) -/

/-- The resolved retry-policy configuration: `delay` (base seconds),
`retry` (max additional attempts), the starting `gasPrice` and the
escalation base `incBase`.  The source defaults (`|| 10`, `|| 3`,
`|| this.gasPrice || getGasPrice(1.2)`, `|| 1`) are resolved by the
caller of the model.  Exact rational arithmetic stands in for JS
doubles. -/
structure RetryCfg where
  delay : Nat := 10
  retry : Nat := 3
  gasPrice : Rat := 1
  incBase : Rat := 1

/-- Oracles for one `sendWithRetry` run: per attempt-counter the network
nonce, the queue re-check observations and the ledger outcome; per
verify-invocation (counted globally, the predicate may run twice per
iteration) the truth value of `!!(await verify(...methodArgs))`.  An
absent `verify` option becomes `function() {}`, i.e. constantly
`false`. -/
structure RetryEnv where
  networkNonces : Nat → Nat
  recounts : Nat → List Nat
  outcomes : Nat → Option ErrMsg
  vres : Nat → Bool

/-- Observable steps of one `sendWithRetry` run. -/
inductive RetryEvent where
  /-- One submission attempt: its counter value, the nonce the record
  carried into dispatch, and the outcome. -/
  | subAttempt (counter nonce : Nat) (err : Option ErrMsg)
  /-- One invocation of the user-supplied verify predicate and its
  result. -/
  | verifyCall (idx : Nat) (res : Bool)
  /-- The linear backoff sleep, in seconds. -/
  | slept (seconds : Nat)
deriving DecidableEq, Repr

/-- The outcome of a `sendWithRetry` run: final manager state, final
record, final error (`none` on success), the event trace and the number
of verify invocations. -/
structure RetryResult where
  st : TxManagerState
  meta : TxRecord
  err : Option ErrMsg
  trace : List RetryEvent
  vcount : Nat

/-- Source `updateNonce = (e, n) =>
e.includes("Transaction was not mined within") ? n : null`. -/
def updateNonce (msg : ErrMsg) (n : Nat) : Option Nat :=
  if msg.notMinedWithin then some n else none

/-- Source `updateTx` closure of `sendWithRetry`: mark the record
`confirmed` unless it already is, and return success. -/
def confirmUpdate (st : TxManagerState) (meta : TxRecord) :
    Option (TxManagerState × TxRecord) :=
  if meta.status == some TxStatus.confirmed then some (st, meta)
  else updateTx st meta TxStatus.confirmed

/-- One submission of the retry loop: set
`options.gasPrice = Math.ceil(gasPrice * incBase ** counter)` on the
record (exact rational arithmetic stands in for the JS double
computation) and run `submitTx` against the oracles of this attempt. -/
def retrySubmit (env : RetryEnv) (cfg : RetryCfg) (counter : Nat) (st : TxManagerState)
    (meta : TxRecord) : Option (TxManagerState × TxRecord × Option ErrMsg) :=
  (submitTx st { meta with optGasPrice := Rat.ceil (cfg.gasPrice * cfg.incBase ^ counter) }
    (env.networkNonces counter) (env.recounts counter) (env.outcomes counter)).2

/-- The `do ... while` loop of `sendWithRetry`.  Each iteration: submit
with the escalated gas price, return success if the submission succeeded
or the verify predicate reports success (`_verify` calls `verify` only on
a failure); break when the retry budget is exhausted; otherwise sleep
`delay * (counter + 1)` seconds, consult `verify` once more, set
`options.nonce = updateNonce(err.message, txMeta.nonce)`, count the
retry, and loop with the same record.  Fuel is `retry + 1 - counter`,
enough for every reachable iteration. -/
def sendWithRetryAux (env : RetryEnv) (cfg : RetryCfg) :
    Nat → Nat → Nat → TxManagerState → TxRecord → Option RetryResult
  | 0, _, _, _, _ => none
  | fuel + 1, counter, vcount, st, meta =>
    match retrySubmit env cfg counter st meta with
    | none => none
    | some (st1, meta1, none) =>
      (confirmUpdate st1 meta1).map fun r =>
        { st := r.1
          meta := r.2
          err := none
          trace := [RetryEvent.subAttempt counter meta1.nonce none]
          vcount := vcount }
    | some (st1, meta1, some msg) =>
      if env.vres vcount then
        (confirmUpdate st1 meta1).map fun r =>
          { st := r.1
            meta := r.2
            err := none
            trace := [RetryEvent.subAttempt counter meta1.nonce (some msg),
              RetryEvent.verifyCall vcount true]
            vcount := vcount + 1 }
      else if cfg.retry = counter then
        some
          { st := st1
            meta := meta1
            err := some msg
            trace := [RetryEvent.subAttempt counter meta1.nonce (some msg),
              RetryEvent.verifyCall vcount false]
            vcount := vcount + 1 }
      else if env.vres (vcount + 1) then
        (confirmUpdate st1 meta1).map fun r =>
          { st := r.1
            meta := r.2
            err := none
            trace := [RetryEvent.subAttempt counter meta1.nonce (some msg),
              RetryEvent.verifyCall vcount false,
              RetryEvent.slept (cfg.delay * (counter + 1)),
              RetryEvent.verifyCall (vcount + 1) true]
            vcount := vcount + 2 }
      else
        (sendWithRetryAux env cfg fuel (counter + 1) (vcount + 2)
            { st1 with retries := st1.retries + 1 }
            { meta1 with optNonce := updateNonce msg meta1.nonce }).map fun r =>
          { r with
            trace := RetryEvent.subAttempt counter meta1.nonce (some msg)
              :: RetryEvent.verifyCall vcount false
              :: RetryEvent.slept (cfg.delay * (counter + 1))
              :: RetryEvent.verifyCall (vcount + 1) false :: r.trace }

/-- Source `sendWithRetry(txMeta, retryOptions, defer)`: the loop with
the attempt counter starting at `0`. -/
def sendWithRetry (env : RetryEnv) (cfg : RetryCfg) (st : TxManagerState) (meta : TxRecord) :
    Option RetryResult :=
  sendWithRetryAux env cfg (cfg.retry + 1) 0 0 st meta

/-! ### Trace checkers

Boolean readers of the traces, used to state the temporal claims. -/

def isSubAttempt : RetryEvent → Bool
  | RetryEvent.subAttempt _ _ _ => true
  | _ => false

/-- Every failed submission event is immediately followed by a verify
invocation. -/
def verifyAfterFailChk : List RetryEvent → Bool
  | RetryEvent.subAttempt _ _ (some _) :: rest =>
    (match rest with
     | RetryEvent.verifyCall _ _ :: _ => true
     | _ => false) && verifyAfterFailChk rest
  | _ :: rest => verifyAfterFailChk rest
  | [] => true

/-- Every backoff sleep is immediately followed by a verify
invocation. -/
def verifyAfterSleepChk : List RetryEvent → Bool
  | RetryEvent.slept _ :: rest =>
    (match rest with
     | RetryEvent.verifyCall _ _ :: _ => true
     | _ => false) && verifyAfterSleepChk rest
  | _ :: rest => verifyAfterSleepChk rest
  | [] => true

/-- No submission event occurs after a verify invocation that reported
success. -/
def noSubAfterVerifyTrueChk : List RetryEvent → Bool
  | RetryEvent.verifyCall _ true :: rest => rest.all fun e => !isSubAttempt e
  | _ :: rest => noSubAfterVerifyTrueChk rest
  | [] => true

def hasVerifyTrue (trace : List RetryEvent) : Bool :=
  trace.any fun e =>
    match e with
    | RetryEvent.verifyCall _ true => true
    | _ => false

/-- The conjunction of the verify-timing properties over the outcome of a
run; vacuously true of a run that never completes within its oracles. -/
def retryResultOk : Option RetryResult → Bool
  | none => true
  | some res =>
    verifyAfterFailChk res.trace && verifyAfterSleepChk res.trace &&
      noSubAfterVerifyTrueChk res.trace &&
      (!hasVerifyTrue res.trace ||
        (res.err == none && res.meta.status == some TxStatus.confirmed &&
          decide (res.meta ∈ res.st.tx)))

/-- The scenario check: exactly one submission was issued, the run
succeeded and the record ended `confirmed`. -/
def scenarioOk : Option RetryResult → Bool
  | none => false
  | some res =>
    (res.trace.filter isSubAttempt).length == 1 && res.err == none &&
      res.meta.status == some TxStatus.confirmed

/-- The reuse requirement one attempt must satisfy, given the message
and nonce of the immediately preceding failed attempt (`none` if the
previous attempt did not fail): when that failure was a mining timeout
with a non-zero nonce, the new attempt must carry the same nonce. -/
def reuseGuard (pending : Option (ErrMsg × Nat)) (n2 : Nat) : Bool :=
  match pending with
  | some mn => !(mn.1.notMinedWithin && mn.2 != 0) || (n2 == mn.2)
  | none => true

/-- Helper of `reuseChk`: walk the trace carrying the message and nonce
of the preceding failed attempt, checking `reuseGuard` at every
attempt. -/
def reuseChkGo (pending : Option (ErrMsg × Nat)) : List RetryEvent → Bool
  | [] => true
  | RetryEvent.subAttempt _ n2 e2 :: rest =>
    reuseGuard pending n2 && reuseChkGo (e2.map (fun m => (m, n2))) rest
  | RetryEvent.verifyCall _ _ :: rest => reuseChkGo pending rest
  | RetryEvent.slept _ :: rest => reuseChkGo pending rest

/-- Whenever a failed attempt whose message contains the mining-timeout
pattern and whose nonce is non-zero is followed by a further attempt,
that attempt carries the same nonce. -/
def reuseChk (trace : List RetryEvent) : Bool := reuseChkGo none trace

def reuseOk : Option RetryResult → Bool
  | none => true
  | some res => reuseChk res.trace

def hasMarkedSubmitted (trace : List SubmitEvent) : Bool :=
  trace.any fun e =>
    match e with
    | SubmitEvent.markedSubmitted _ => true
    | _ => false

def hasLowQueueCheck (trace : List SubmitEvent) : Bool :=
  trace.any fun e =>
    match e with
    | SubmitEvent.queueCheck c => decide (c < awaitLimit)
    | _ => false

def hasQueueCheck (trace : List SubmitEvent) : Bool :=
  trace.any fun e =>
    match e with
    | SubmitEvent.queueCheck _ => true
    | _ => false

def sleepsAreFixed (trace : List SubmitEvent) : Bool :=
  trace.all fun e =>
    match e with
    | SubmitEvent.queueSleep s => s == awaitTime
    | _ => true

/-- The trace opens with the `addTx` step immediately followed by the
nonce allocation. -/
def allocPrecedesWait : List SubmitEvent → Bool
  | SubmitEvent.addTxStep :: SubmitEvent.nonceAllocated _ :: _ => true
  | _ => false

/-! ### Reachable exclusion-set maps -/

/-- The `_nonceInUse` maps reachable in a manager: initially empty, and
only ever modified by `_checkError`. -/
inductive ExclReachable : (Nat → Option (List Nat)) → Prop where
  | base : ExclReachable (fun _ => none)
  | step (f : Nat → Option (List Nat)) (e : ErrMsg) (a n : Nat) :
      ExclReachable f → ExclReachable (_checkError f e a n)

/-! ### Concrete fixtures for witnesses and counterexamples -/

/-- A fresh record meta for the given sender, as `getTxMeta` builds it. -/
def metaFresh (a : Nat) : TxRecord := { fromAddr := a }

/-- An error message containing the mining-timeout pattern. -/
def msgTimeout : ErrMsg := { notMinedWithin := true }

/-- A store holding exactly 100 submitted records, all from address 1:
the in-flight cap of the queue governor is reached. -/
def st100 : TxManagerState :=
  { tx := (List.range 100).map fun i =>
      { id := some (i + 1), fromAddr := 1, nonce := i, status := some TxStatus.submitted }
    nonceInUse := fun _ => none
    idCounter := 200
    retries := 0 }

/-- Retry policy `retry: 1` with a unit gas price. -/
def cfgRetryOne : RetryCfg := { retry := 1, gasPrice := 3 }

/-- Oracles for the zero-nonce retry run: network nonce 0, the first
attempt fails with a mining timeout, the second succeeds, the verify
predicate is absent (constantly false). -/
def envZeroNonce : RetryEnv :=
  { networkNonces := fun _ => 0,
    recounts := fun _ => [],
    outcomes := fun k => if k = 0 then some msgTimeout else none,
    vres := fun _ => false }

/-- Oracles for the verify scenario: the first attempt fails with a
mining timeout and the configured verify predicate reports success. -/
def envScenario : RetryEnv :=
  { networkNonces := fun _ => 0,
    recounts := fun _ => [],
    outcomes := fun k => if k = 0 then some msgTimeout else none,
    vres := fun _ => true }

/-- The manager state after the nonce-claim section of the witness run of
the no-reuse theorem: one record, submitted with nonce 0. -/
def c1Store : TxManagerState :=
  { tx := [{ id := some 1, fromAddr := 7, nonce := 0, optNonce := some 0, optGasPrice := 0,
             status := some TxStatus.submitted }]
    nonceInUse := fun _ => none
    idCounter := 2
    retries := 0 }

/-- The record produced by the witness run of the caller-nonce theorem:
caller-supplied nonce 9, dispatched and stored unchanged. -/
def c9Record : TxRecord :=
  { id := some 1, fromAddr := 3, nonce := 9, optNonce := some 9, optGasPrice := 0,
    status := some TxStatus.submitted }

/-- The manager state after that witness run. -/
def c9Store : TxManagerState :=
  { tx := [c9Record]
    nonceInUse := fun _ => none
    idCounter := 2
    retries := 0 }

/-- An exclusion-set map reached by one `_checkError` step recording
nonce 5 for address 1 after a nonce-too-low error. -/
def c5Map : Nat → Option (List Nat) :=
  _checkError (fun _ => none) { nonceTooLow := true } 1 5

/-- An exclusion-set map reached by one `_checkError` step recording
nonce 8 for address 3 after a known-transaction error. -/
def c10Map : Nat → Option (List Nat) :=
  _checkError (fun _ => none) { knownTransaction := true } 3 8

/-! ## Theorems -/

/-! ### The nonce scan -/

theorem scanWhile_le (p : Nat → Bool) (fuel : Nat) :
    ∀ start, start ≤ scanWhile p fuel start := by
  induction fuel with
  | zero => intro start; simp [scanWhile]
  | succ f ih =>
    intro start
    simp only [scanWhile]
    by_cases h : p start
    · simp only [h, if_true]
      exact le_trans (Nat.le_succ start) (ih (start + 1))
    · simp [h]

theorem scanWhile_false {p : Nat → Bool} {S : Finset Nat}
    (hS : ∀ n, p n = true → n ∈ S) :
    ∀ (fuel start : Nat), (S.filter (fun x => start ≤ x)).card < fuel →
      p (scanWhile p fuel start) = false := by
  intro fuel
  induction fuel with
  | zero => intro start h; exact absurd h (Nat.not_lt_zero _)
  | succ f ih =>
    intro start h
    simp only [scanWhile]
    by_cases hp : p start
    · simp only [hp, if_true]
      apply ih
      have hmem : start ∈ S.filter (fun x => start ≤ x) :=
        Finset.mem_filter.mpr ⟨hS start hp, le_refl start⟩
      have hss : S.filter (fun x => start + 1 ≤ x) ⊂ S.filter (fun x => start ≤ x) := by
        constructor
        · intro x hx
          rcases Finset.mem_filter.mp hx with ⟨hxS, hxle⟩
          exact Finset.mem_filter.mpr ⟨hxS, le_trans (Nat.le_succ start) hxle⟩
        · intro hcon
          have := Finset.mem_filter.mp (hcon hmem)
          omega
      have := Finset.card_lt_card hss
      omega
    · simp [hp]

theorem _getHighestContinuousFrom_ge (st : TxManagerState) (txList : List TxRecord)
    (startPoint : Nat) (address : Nat) :
    startPoint ≤ _getHighestContinuousFrom st txList startPoint address :=
  scanWhile_le _ _ _

theorem _getHighestContinuousFrom_free (st : TxManagerState) (txList : List TxRecord)
    (startPoint : Nat) (address : Nat) :
    nonceBlocked (txList.map (fun t => t.nonce)) (st.nonceInUse address)
      (_getHighestContinuousFrom st txList startPoint address) = false := by
  have hsub : ∀ n, nonceBlocked (txList.map (fun t => t.nonce)) (st.nonceInUse address) n = true →
      n ∈ (txList.map (fun t => t.nonce) ++ (st.nonceInUse address).getD []).toFinset := by
    intro n hn
    rw [List.mem_toFinset, List.mem_append]
    unfold nonceBlocked at hn
    rcases Bool.or_eq_true_iff.mp hn with h | h
    · exact Or.inl (of_decide_eq_true h)
    · right
      cases hInUse : st.nonceInUse address with
      | none => rw [hInUse] at h; simp at h
      | some l => rw [hInUse] at h; simpa using of_decide_eq_true h
  apply scanWhile_false hsub
  calc ((_ : Finset Nat).filter _).card
      ≤ (List.toFinset (txList.map (fun t => t.nonce) ++ (st.nonceInUse address).getD [])).card :=
        Finset.card_filter_le _ _
    _ ≤ (txList.map (fun t => t.nonce) ++ (st.nonceInUse address).getD []).length :=
        List.toFinset_card_le _
    _ < (txList.map (fun t => t.nonce)).length + ((st.nonceInUse address).getD []).length + 1 := by
        rw [List.length_append]; omega

theorem nonceBlocked_false_elim {nonces : List Nat} {inUse : Option (List Nat)} {n : Nat}
    (h : nonceBlocked nonces inUse n = false) :
    n ∉ nonces ∧ (∀ l, inUse = some l → n ∉ l) := by
  unfold nonceBlocked at h
  rcases Bool.or_eq_false_iff.mp h with ⟨h1, h2⟩
  refine ⟨of_decide_eq_false h1, ?_⟩
  intro l hl
  rw [hl] at h2
  exact of_decide_eq_false h2

/-! ### Properties of `getNonce` -/

theorem getNonce_eq_local (st : TxManagerState) (address networkNonce : Nat) :
    getNonce st address networkNonce =
      _getHighestContinuousFrom st
        (getSubmittedTransactions st (some address) ++
          (getPendingTransactions st (some address)).filter (fun tx => tx.nonce > 0))
        (max networkNonce (_getHighestLocallyConfirmed st address)) address := by
  unfold getNonce
  have h1 : networkNonce ≤ max networkNonce (_getHighestLocallyConfirmed st address) :=
    le_max_left _ _
  exact max_eq_right (le_trans h1 (_getHighestContinuousFrom_ge _ _ _ _))

theorem getNonce_ge_network (st : TxManagerState) (address networkNonce : Nat) :
    networkNonce ≤ getNonce st address networkNonce := le_max_left _ _

theorem getNonce_ge_confirmed (st : TxManagerState) (address networkNonce : Nat) :
    _getHighestLocallyConfirmed st address ≤ getNonce st address networkNonce := by
  rw [getNonce_eq_local]
  exact le_trans (le_max_right _ _) (_getHighestContinuousFrom_ge _ _ _ _)

theorem getNonce_unblocked (st : TxManagerState) (address networkNonce : Nat) :
    (getNonce st address networkNonce) ∉
        (getSubmittedTransactions st (some address) ++
          (getPendingTransactions st (some address)).filter (fun tx => tx.nonce > 0)).map
          (fun t => t.nonce) ∧
      ∀ l, st.nonceInUse address = some l → (getNonce st address networkNonce) ∉ l := by
  rw [getNonce_eq_local]
  exact nonceBlocked_false_elim (_getHighestContinuousFrom_free st _ _ address)

theorem getNonce_not_submitted_nonce (st : TxManagerState) (address networkNonce : Nat) :
    ∀ t ∈ getSubmittedTransactions st (some address),
      t.nonce ≠ getNonce st address networkNonce := by
  intro t ht heq
  have h := (getNonce_unblocked st address networkNonce).1
  exact h (List.mem_map.mpr ⟨t, List.mem_append.mpr (Or.inl ht), heq⟩)

/-! ### Store-operation lemmas -/

theorem findIndex_some {p : α → Bool} :
    ∀ {l : List α} {i : Nat}, findIndex p l = some i →
      i < l.length ∧ ∃ x, l.get? i = some x ∧ p x = true := by
  intro l
  induction l with
  | nil => intro i h; simp [findIndex] at h
  | cons x xs ih =>
    intro i h
    simp only [findIndex] at h
    by_cases hp : p x
    · rw [if_pos hp] at h
      cases h
      exact ⟨Nat.succ_pos _, x, rfl, hp⟩
    · rw [if_neg hp] at h
      cases hfx : findIndex p xs with
      | none => rw [hfx] at h; simp at h
      | some j =>
        rw [hfx] at h
        simp only [Option.map_some', Option.some_inj] at h
        subst h
        rcases ih hfx with ⟨hlt, y, hy, hpy⟩
        exact ⟨Nat.succ_lt_succ hlt, y, hy, hpy⟩

theorem findIndex_eq_none_iff {p : α → Bool} :
    ∀ {l : List α}, findIndex p l = none ↔ ∀ x ∈ l, p x = false := by
  intro l
  induction l with
  | nil => simp [findIndex]
  | cons x xs ih =>
    simp only [findIndex, List.mem_cons]
    by_cases hp : p x
    · simp [hp]
    · rw [if_neg hp]
      cases hfx : findIndex p xs with
      | none =>
        simp only [Option.map_none']
        constructor
        · intro _ y hy
          rcases hy with rfl | hy
          · exact Bool.of_not_eq_true hp
          · exact ih.mp hfx y hy
        · intro _; trivial
      | some j =>
        simp only [Option.map_some']
        constructor
        · intro h; simp at h
        · intro h
          have : findIndex p xs = none := ih.mpr fun y hy => h y (Or.inr hy)
          rw [hfx] at this
          simp at this

theorem mem_set_of_lt {α : Type _} (v : α) :
    ∀ (l : List α) (i : Nat), i < l.length → v ∈ l.set i v := by
  intro l
  induction l with
  | nil => intro i h; simp at h
  | cons x xs ih =>
    intro i h
    cases i with
    | zero => simp [List.set]
    | succ j =>
      simp only [List.set, List.mem_cons]
      exact Or.inr (ih j (Nat.lt_of_succ_lt_succ h))

theorem updateTx_some {st : TxManagerState} {txMeta : TxRecord} {status : TxStatus}
    {st2 : TxManagerState} {meta2 : TxRecord}
    (h : updateTx st txMeta status = some (st2, meta2)) :
    meta2 = { txMeta with status := some status } ∧
      meta2 ∈ st2.tx ∧
      st2.tx.length = st.tx.length ∧
      st2.nonceInUse = st.nonceInUse ∧
      st2.idCounter = st.idCounter ∧
      st2.retries = st.retries := by
  unfold updateTx at h
  cases hidx : findIndex (fun t => t.id == txMeta.id) st.tx with
  | none => rw [hidx] at h; simp at h
  | some i =>
    rw [hidx] at h
    simp only [Option.some_inj, Prod.mk.injEq] at h
    rcases h with ⟨hst, hmeta⟩
    have hlt := (findIndex_some hidx).1
    subst hst
    refine ⟨hmeta.symm, ?_, by simp, rfl, rfl, rfl⟩
    rw [← hmeta]
    exact mem_set_of_lt _ _ _ hlt

theorem updateTx_isSome {st : TxManagerState} {txMeta : TxRecord} {status : TxStatus}
    (h : ∃ t ∈ st.tx, t.id = txMeta.id) :
    (updateTx st txMeta status).isSome = true := by
  unfold updateTx
  cases hidx : findIndex (fun t => t.id == txMeta.id) st.tx with
  | none =>
    rcases h with ⟨t, ht, hid⟩
    have := findIndex_eq_none_iff.mp hidx t ht
    simp only [beq_eq_false_iff_ne, ne_eq] at this
    exact absurd hid this
  | some i => simp

theorem updateTx_none {st : TxManagerState} {txMeta : TxRecord} {status : TxStatus}
    (h : ∀ t ∈ st.tx, t.id ≠ txMeta.id) :
    updateTx st txMeta status = none := by
  unfold updateTx
  cases hidx : findIndex (fun t => t.id == txMeta.id) st.tx with
  | none => rfl
  | some i =>
    rcases (findIndex_some hidx).2 with ⟨t, hget, hp⟩
    have ht : t ∈ st.tx := List.get?_mem hget
    simp only [beq_iff_eq] at hp
    exact absurd hp (h t ht)

theorem addTx_fresh {st : TxManagerState} {meta : TxRecord} (h : idTruthy meta.id = false) :
    addTx st meta =
      some ({ st with
          tx := st.tx ++ [{ meta with id := some (st.idCounter % maxSafeInteger) }]
          idCounter := st.idCounter % maxSafeInteger + 1 },
        { meta with id := some (st.idCounter % maxSafeInteger) }) := by
  unfold addTx
  rw [h]
  rfl

theorem addTx_some_fields {st : TxManagerState} {meta : TxRecord} {st1 : TxManagerState}
    {m1 : TxRecord} (h : addTx st meta = some (st1, m1)) :
    m1.fromAddr = meta.fromAddr ∧ m1.optNonce = meta.optNonce ∧ m1.nonce = meta.nonce := by
  unfold addTx at h
  by_cases hid : idTruthy meta.id = true
  · rw [hid] at h
    simp only [if_true] at h
    rcases updateTx_some h with ⟨hm, _⟩
    rw [hm]
    exact ⟨rfl, rfl, rfl⟩
  · rw [Bool.not_eq_true] at hid
    rw [hid] at h
    simp only [Bool.false_eq_true, if_false, Option.some_inj, Prod.mk.injEq] at h
    rw [← h.2]
    exact ⟨rfl, rfl, rfl⟩

/-! ### The locked section of `submitTx` -/

theorem submitClaim_some {st : TxManagerState} {meta : TxRecord} {nn : Nat} {rc : List Nat}
    {st2 : TxManagerState} {m2 : TxRecord} {ret : Nat}
    (h : (submitClaim st meta nn rc).2 = some (st2, m2, ret)) :
    ∃ st1 m1, addTx st meta = some (st1, m1) ∧
      ret = getNonce st1 m1.fromAddr nn ∧
      m2 = { m1 with
        optNonce := some (jsOr m1.optNonce ret)
        nonce := jsOr m1.optNonce ret
        status := some TxStatus.submitted } ∧
      m2 ∈ st2.tx := by
  unfold submitClaim at h
  cases hadd : addTx st meta with
  | none => rw [hadd] at h; simp at h
  | some p =>
    obtain ⟨st1, m1⟩ := p
    rw [hadd] at h
    simp only at h
    by_cases hwq : (_waitQueue (getSubmittedTransactions st1 none).length rc).2 = true
    · rw [if_pos hwq] at h
      cases hupd : updateTx st1
          { m1 with
            optNonce := some (jsOr m1.optNonce (getNonce st1 m1.fromAddr nn))
            nonce := jsOr m1.optNonce (getNonce st1 m1.fromAddr nn) }
          TxStatus.submitted with
      | none => rw [hupd] at h; simp at h
      | some q =>
        obtain ⟨st2a, m3⟩ := q
        rw [hupd] at h
        simp only [Prod.snd, Option.some_inj, Prod.mk.injEq] at h
        obtain ⟨hst, hm, hret⟩ := h
        subst hst hret
        rcases updateTx_some hupd with ⟨hm3, hmem, _⟩
        refine ⟨st1, m1, rfl, rfl, ?_, ?_⟩
        · rw [← hm, hm3]
        · rw [← hm]; exact hmem
    · rw [if_neg hwq] at h
      simp at h

/-! ### Claim C1 -/

/-- C1: nonce selection for one address is serialized by the per-address
mutex, whose critical section (`submitClaim`) covers `getNonce` through
the `submitted` transition that records the selected nonce on the record.
Under that serialization, once one invocation has returned `n1` and its
record (nonce not overridden by the caller) has been marked `submitted`
with `n1`, the next `getNonce` invocation for the same address returns a
different value, whatever network nonce it observes: the nonce `n1` stays
excluded until that record leaves the `submitted`/`pending` set. -/
theorem nonce_coordinator_no_reuse (st : TxManagerState) (txMeta : TxRecord) (nn1 nn2 : Nat)
    (recounts : List Nat) (st2 : TxManagerState) (meta2 : TxRecord) (n1 : Nat)
    (hOpt : txMeta.optNonce = none)
    (hRun : (submitClaim st txMeta nn1 recounts).2 = some (st2, meta2, n1)) :
    getNonce st2 meta2.fromAddr nn2 ≠ n1 := by
  obtain ⟨st1, m1, hadd, _, hm2, hmem⟩ := submitClaim_some hRun
  have hopt1 : m1.optNonce = none := by rw [(addTx_some_fields hadd).2.1, hOpt]
  have hn : meta2.nonce = n1 := by rw [hm2]; simp [jsOr, hopt1]
  have hsub : meta2.status = some TxStatus.submitted := by rw [hm2]
  have hmemSub : meta2 ∈ getSubmittedTransactions st2 (some meta2.fromAddr) := by
    unfold getSubmittedTransactions _filterTxByStatus
    rw [List.mem_filter]
    refine ⟨hmem, ?_⟩
    simp [hsub]
  intro heq
  exact getNonce_not_submitted_nonce st2 meta2.fromAddr nn2 meta2 hmemSub (by rw [hn, heq])

/-- Witness for C1: a concrete first call returning nonce 0; after its
record is marked `submitted`, the next call returns a different nonce. -/
theorem nonce_coordinator_no_reuse_witness :
    getNonce c1Store 7 0 ≠ 0 :=
  nonce_coordinator_no_reuse (mkManager 1) (metaFresh 7) 0 0 []
    c1Store
    { id := some 1, fromAddr := 7, nonce := 0, optNonce := some 0, optGasPrice := 0,
      status := some TxStatus.submitted }
    0 rfl rfl

/-! ### Claim C2 -/

theorem specConfirmedFloor_eq (st : TxManagerState) (address : Nat) :
    specConfirmedFloor st address = _getHighestLocallyConfirmed st address := by
  unfold specConfirmedFloor _getHighestLocallyConfirmed _getHighestNonce
  have hfil : (st.tx.filter fun t =>
      t.status == some TxStatus.confirmed && t.fromAddr == address) =
      getConfirmedTransactions st (some address) := rfl
  rw [hfil]
  cases hm : (getConfirmedTransactions st (some address)).map (fun t => t.nonce) with
  | nil => rfl
  | cons n ns => rfl

/-- C2: for every address and every state of the record store, the nonce
returned by `getNonce` is at least the maximum of the network nonce and
one above the highest nonce among the confirmed records of the address
(zero when it has none, as expressed by `specConfirmedFloor`). -/
theorem getNonce_monotone_lower_bound (st : TxManagerState) (address networkNonce : Nat) :
    max networkNonce (specConfirmedFloor st address) ≤ getNonce st address networkNonce := by
  apply max_le
  · exact getNonce_ge_network st address networkNonce
  · rw [specConfirmedFloor_eq]
    exact getNonce_ge_confirmed st address networkNonce

/-! ### Claim C5 -/

/-- C5: if the exclusion set of an address contains the nonce `k` (as it
does after a nonce-too-low error recorded it) and the network transaction
count is also `k`, then `getNonce` returns a value strictly greater than
`k`: the scan starts at or above the network nonce and skips every value
in the exclusion set. -/
theorem exclusion_set_advances_nonce (st : TxManagerState) (address k : Nat) (l : List Nat)
    (hInUse : st.nonceInUse address = some l) (hMem : k ∈ l) :
    k < getNonce st address k := by
  have hge : k ≤ getNonce st address k := getNonce_ge_network st address k
  have hni : getNonce st address k ∉ l := (getNonce_unblocked st address k).2 l hInUse
  rcases Nat.lt_or_ge k (getNonce st address k) with h | h
  · exact h
  · exfalso
    have heq : getNonce st address k = k := le_antisymm h hge
    rw [heq] at hni
    exact hni hMem

/-- Witness for C5: after `_checkError` records nonce 5 for address 1
following a nonce-too-low error, `getNonce` with network nonce 5 returns
a value above 5 (concretely, 6). -/
theorem exclusion_set_advances_nonce_witness :
    5 < getNonce { tx := [], nonceInUse := c5Map, idCounter := 0, retries := 0 } 1 5 :=
  exclusion_set_advances_nonce
    { tx := [], nonceInUse := c5Map, idCounter := 0, retries := 0 } 1 5 [5]
    (by decide) (by decide)

/-! ### Claim C4 -/

/-- C4, counterexample: the claim asserts that a meta whose id matches no
existing record gets a fresh id and is appended as exactly one new
record.  On the empty store (so id 5 matches nothing), `addTx` with
`id = 5` instead takes the update branch — `getFilteredTxList({id})`
returns an array, which is always truthy — and crashes on
`this.tx[-1][key]`; nothing is appended. -/
theorem addTx_unmatched_id_counterexample :
    (mkManager 10).tx = [] ∧
      (addTx (mkManager 10) { id := some 5, fromAddr := 1 }).isNone = true :=
  ⟨rfl, rfl⟩

/-- C4, amended: if the meta carries a truthy id that matches an existing
record, the fields are merged into it and the record count is unchanged
(idempotent update); if the id is absent (or zero, which JS treats as
absent), a fresh id `idCounter % MAX_SAFE_INTEGER` is allocated and
exactly one record is appended; if the id is truthy but matches no
record, the call fails without appending anything; and an allocated id
collides with no stored id provided the counter exceeds every stored id
and has not wrapped past `MAX_SAFE_INTEGER`. -/
theorem addTx_create_or_update (st : TxManagerState) (meta : TxRecord) :
    (idTruthy meta.id = true → (∃ t ∈ st.tx, t.id = meta.id) →
      ∃ st2 m2, addTx st meta = some (st2, m2) ∧ st2.tx.length = st.tx.length) ∧
    (idTruthy meta.id = true → (∀ t ∈ st.tx, t.id ≠ meta.id) →
      addTx st meta = none) ∧
    (idTruthy meta.id = false →
      ∃ st2 m2, addTx st meta = some (st2, m2) ∧
        st2.tx = st.tx ++ [m2] ∧ m2.id = some (st.idCounter % maxSafeInteger)) ∧
    (idTruthy meta.id = false → st.idCounter < maxSafeInteger →
      (∀ t ∈ st.tx, ∀ i, t.id = some i → i < st.idCounter) →
      ∀ st2 m2, addTx st meta = some (st2, m2) → ∀ t ∈ st.tx, t.id ≠ m2.id) := by
  refine ⟨?_, ?_, ?_, ?_⟩
  · intro hid hex
    unfold addTx
    rw [hid]
    simp only [if_true]
    cases hupd : updateTx st meta TxStatus.pending with
    | none =>
      have : (updateTx st meta TxStatus.pending).isSome = true := updateTx_isSome hex
      rw [hupd] at this
      simp at this
    | some p =>
      obtain ⟨st2, m2⟩ := p
      exact ⟨st2, m2, rfl, (updateTx_some hupd).2.2.1⟩
  · intro hid hnone
    unfold addTx
    rw [hid]
    simp only [if_true]
    exact updateTx_none hnone
  · intro hid
    rw [addTx_fresh hid]
    exact ⟨_, _, rfl, rfl, rfl⟩
  · intro hid hlt hbound st2 m2 hadd t ht
    rw [addTx_fresh hid] at hadd
    simp only [Option.some_inj, Prod.mk.injEq] at hadd
    have hm2 : m2.id = some (st.idCounter % maxSafeInteger) := by
      rw [← hadd.2]
    rw [hm2, Nat.mod_eq_of_lt hlt]
    intro hcon
    exact absurd (hbound t ht st.idCounter hcon) (lt_irrefl _)

/-- Witness for C4 (amended): appending a fresh meta to a one-record
store yields exactly one more record with the allocated id. -/
theorem addTx_create_or_update_witness :
    ∃ st2 m2,
      addTx { tx := [{ id := some 3, fromAddr := 1 }], nonceInUse := fun _ => none,
              idCounter := 4, retries := 0 } (metaFresh 9) = some (st2, m2) ∧
      st2.tx = [{ id := some 3, fromAddr := 1 }] ++ [m2] ∧
      m2.id = some (4 % maxSafeInteger) :=
  (addTx_create_or_update
    { tx := [{ id := some 3, fromAddr := 1 }], nonceInUse := fun _ => none,
      idCounter := 4, retries := 0 } (metaFresh 9)).2.2.1 rfl

/-! ### Claim C9 -/

/-- C9, counterexample: the claim says a caller-supplied nonce always
wins over the computed one.  Supplying nonce `0` (a legitimate first
nonce) with network nonce 3 dispatches with nonce 3, not 0: the JS
`options.nonce || nextNonce` treats `0` as absent. -/
theorem caller_zero_nonce_counterexample :
    ((submitClaim (mkManager 1) { fromAddr := 3, optNonce := some 0 } 3 []).2.map
        fun r => (r.2.1.nonce, r.2.1.optNonce)) = some (3, some 3) ∧
      (3 : Nat) ≠ 0 := by
  constructor
  · decide
  · decide

/-- C9, amended: whenever the caller supplied a non-zero nonce in the
options, the dispatched transaction carries that nonce instead of the
value computed by the nonce coordinator, and the record stores it (in `nonce` and in
`options.nonce`) when it transitions to `submitted`.  A caller-supplied
zero is treated as absent by `options.nonce || nextNonce`. -/
theorem caller_nonce_wins_amended (st : TxManagerState) (meta : TxRecord) (nn : Nat)
    (recounts : List Nat) (st2 : TxManagerState) (m2 : TxRecord) (ret k : Nat)
    (hOpt : meta.optNonce = some k) (hk : k ≠ 0)
    (hRun : (submitClaim st meta nn recounts).2 = some (st2, m2, ret)) :
    m2.nonce = k ∧ m2.optNonce = some k ∧
      m2.status = some TxStatus.submitted ∧ m2 ∈ st2.tx := by
  obtain ⟨st1, m1, hadd, _, hm2, hmem⟩ := submitClaim_some hRun
  have hopt1 : m1.optNonce = some k := by rw [(addTx_some_fields hadd).2.1, hOpt]
  have hjs : jsOr m1.optNonce ret = k := by rw [hopt1]; simp [jsOr, hk]
  refine ⟨?_, ?_, ?_, hmem⟩ <;> rw [hm2] <;> simp [hjs]

/-- Witness for C9 (amended): a caller-supplied nonce 9 is dispatched and
recorded unchanged. -/
theorem caller_nonce_wins_amended_witness :
    c9Record.nonce = 9 ∧ c9Record.optNonce = some 9 ∧
      c9Record.status = some TxStatus.submitted ∧ c9Record ∈ c9Store.tx :=
  caller_nonce_wins_amended (mkManager 1) { fromAddr := 3, optNonce := some 9 } 0 []
    c9Store c9Record 0 9 rfl (by decide) rfl

/-! ### Claim C10 -/

theorem flaAdd_singleton_new {l : List Nat} {x : Nat} (hx : x ∉ l) :
    flaPush 200 true l [x] = flaTruncate 200 l [x] ++ [x] := by
  show flaAdd 200 l [x] = _
  unfold flaAdd
  have hfil : ([x].filter (fun item => item ∉ l)) = [x] := by
    simp [hx]
  rw [hfil]
  rfl

theorem flaPush_mem {l : List Nat} {x : Nat} (hx : x ∈ l) :
    flaPush 200 true l [x] = l := by
  show flaAdd 200 l [x] = _
  unfold flaAdd
  have hfil : ([x].filter (fun item => item ∉ l)) = [] := by
    simp [hx]
  rw [hfil]
  show flaTruncate 200 l [] ++ [] = l
  unfold flaTruncate
  rw [if_neg (by simp)]
  simp

theorem flaPush_new_lt {l : List Nat} {x : Nat} (hx : x ∉ l) (hlen : l.length < 200) :
    flaPush 200 true l [x] = l ++ [x] := by
  rw [flaAdd_singleton_new hx]
  unfold flaTruncate
  rw [if_neg (by omega)]

theorem flaPush_new_eq {l : List Nat} {x : Nat} (hx : x ∉ l) (hlen : 200 ≤ l.length) :
    flaPush 200 true l [x] = l.drop 1 ++ [x] := by
  rw [flaAdd_singleton_new hx]
  unfold flaTruncate
  rw [if_pos ⟨by omega, hlen, by simp⟩]
  rfl

theorem exclusion_set_invariant :
    ∀ f, ExclReachable f → ∀ a l, f a = some l → l.Nodup ∧ l.length ≤ 200 := by
  intro f hf
  induction hf with
  | base => intro a l h; simp at h
  | step f0 e a0 n0 hf0 ih =>
    intro a l h
    unfold _checkError at h
    by_cases hst : isStuckNonceMsg e = true
    · rw [hst] at h
      simp only [if_true] at h
      by_cases ha : a = a0
      · rw [if_pos ha] at h
        simp only [Option.some_inj] at h
        have hcur : (((f0 a0).getD []).Nodup ∧ ((f0 a0).getD []).length ≤ 200) := by
          cases hc : f0 a0 with
          | none => simp
          | some cur => simpa using ih a0 cur hc
        obtain ⟨hnd, hlen⟩ := hcur
        by_cases hmem : n0 ∈ (f0 a0).getD []
        · rw [flaPush_mem hmem] at h
          rw [← h]
          exact ⟨hnd, hlen⟩
        · by_cases hfull : ((f0 a0).getD []).length < 200
          · rw [flaPush_new_lt hmem hfull] at h
            rw [← h]
            constructor
            · rw [List.nodup_append]
              refine ⟨hnd, List.nodup_singleton _, ?_⟩
              intro y hy hz
              rw [List.mem_singleton] at hz
              subst hz
              exact hmem hy
            · rw [List.length_append]
              simp only [List.length_singleton]
              omega
          · rw [flaPush_new_eq hmem (by omega)] at h
            rw [← h]
            constructor
            · rw [List.nodup_append]
              refine ⟨(List.drop_sublist 1 _).nodup hnd, List.nodup_singleton _, ?_⟩
              intro y hy hz
              rw [List.mem_singleton] at hz
              subst hz
              exact hmem (List.mem_of_mem_drop hy)
            · rw [List.length_append, List.length_drop]
              simp only [List.length_singleton]
              omega
      · rw [if_neg ha] at h
        exact ih a l h
    · rw [Bool.not_eq_true] at hst
      rw [hst] at h
      simp only [Bool.false_eq_true, if_false] at h
      exact ih a l h

/-- C10: every per-address exclusion set reachable through `_checkError`
is duplicate-free and holds at most 200 entries; moreover a push of a
value already present leaves the set unchanged, a push of a new value
below the bound appends it (preserving insertion order), and a push of a
new value at the bound evicts the oldest entry (the front) before
appending. -/
theorem exclusion_set_bounded_nodup :
    (∀ f, ExclReachable f → ∀ a l, f a = some l → l.Nodup ∧ l.length ≤ 200) ∧
    (∀ (l : List Nat) (x : Nat),
      (x ∈ l → flaPush 200 true l [x] = l) ∧
      (x ∉ l → l.length < 200 → flaPush 200 true l [x] = l ++ [x]) ∧
      (x ∉ l → 200 ≤ l.length → flaPush 200 true l [x] = l.drop 1 ++ [x])) :=
  ⟨exclusion_set_invariant,
   fun _ _ => ⟨fun hx => flaPush_mem hx,
     fun hx hlen => flaPush_new_lt hx hlen,
     fun hx hlen => flaPush_new_eq hx hlen⟩⟩

/-- Witness for C10: the exclusion set reached by recording nonce 8 for
address 3 is duplicate-free and within the bound. -/
theorem exclusion_set_bounded_nodup_witness :
    List.Nodup [8] ∧ List.length [8] ≤ 200 :=
  exclusion_set_bounded_nodup.1 c10Map (ExclReachable.step _ _ 3 8 ExclReachable.base)
    3 [8] (by decide)

/-! ### Claim C3 -/

theorem waitQueueGo_sleeps (rs : List Nat) : sleepsAreFixed (waitQueueGo rs).1 = true := by
  induction rs with
  | nil => rfl
  | cons r rs ih =>
    unfold waitQueueGo
    by_cases h : awaitLimit ≤ r
    · rw [if_pos h]
      simpa [sleepsAreFixed] using ih
    · rw [if_neg h]
      rfl

theorem waitQueueGo_noMarked (rs : List Nat) :
    hasMarkedSubmitted (waitQueueGo rs).1 = false := by
  induction rs with
  | nil => rfl
  | cons r rs ih =>
    unfold waitQueueGo
    by_cases h : awaitLimit ≤ r
    · rw [if_pos h]
      simpa [hasMarkedSubmitted] using ih
    · rw [if_neg h]
      rfl

theorem waitQueueGo_low {rs : List Nat} (h : (waitQueueGo rs).2 = true) :
    hasLowQueueCheck (waitQueueGo rs).1 = true := by
  induction rs with
  | nil => simp [waitQueueGo] at h
  | cons r rs ih =>
    unfold waitQueueGo at h ⊢
    by_cases hle : awaitLimit ≤ r
    · rw [if_pos hle] at h ⊢
      simp only at h
      have := ih h
      simp only [hasLowQueueCheck, List.any_cons] at this ⊢
      simp [this]
    · rw [if_neg hle]
      simp only [hasLowQueueCheck, List.any_cons, List.any_nil]
      have : r < awaitLimit := Nat.lt_of_not_le hle
      simp [this]

theorem _waitQueue_sleeps (c : Nat) (rc : List Nat) :
    sleepsAreFixed (_waitQueue c rc).1 = true := by
  unfold _waitQueue
  by_cases h : awaitLimit ≤ c
  · rw [if_pos h]
    simpa [sleepsAreFixed] using waitQueueGo_sleeps rc
  · rw [if_neg h]
    rfl

theorem _waitQueue_noMarked (c : Nat) (rc : List Nat) :
    hasMarkedSubmitted (_waitQueue c rc).1 = false := by
  unfold _waitQueue
  by_cases h : awaitLimit ≤ c
  · rw [if_pos h]
    simpa [hasMarkedSubmitted] using waitQueueGo_noMarked rc
  · rw [if_neg h]
    rfl

theorem _waitQueue_low {c : Nat} {rc : List Nat} (h : (_waitQueue c rc).2 = true) :
    hasLowQueueCheck (_waitQueue c rc).1 = true := by
  unfold _waitQueue at h ⊢
  by_cases hle : awaitLimit ≤ c
  · rw [if_pos hle] at h ⊢
    simp only at h
    have := waitQueueGo_low h
    simp only [hasLowQueueCheck, List.any_cons] at this ⊢
    simp [this]
  · rw [if_neg hle]
    simp only [hasLowQueueCheck, List.any_cons, List.any_nil]
    have : c < awaitLimit := Nat.lt_of_not_le hle
    simp [this]

theorem submitClaim_fst_cases (st : TxManagerState) (meta : TxRecord) (nn : Nat)
    (rc : List Nat) :
    (submitClaim st meta nn rc).1 = [SubmitEvent.addTxStep] ∨
    ∃ st1 m1 tail, addTx st meta = some (st1, m1) ∧
      (submitClaim st meta nn rc).1 =
        SubmitEvent.addTxStep :: SubmitEvent.nonceAllocated (getNonce st1 m1.fromAddr nn) ::
          ((_waitQueue (getSubmittedTransactions st1 none).length rc).1 ++ tail) ∧
      (tail = [] ∨
        ((_waitQueue (getSubmittedTransactions st1 none).length rc).2 = true ∧
          ∃ n2, tail = [SubmitEvent.markedSubmitted n2])) := by
  unfold submitClaim
  cases hadd : addTx st meta with
  | none => exact Or.inl rfl
  | some p =>
    obtain ⟨st1, m1⟩ := p
    right
    dsimp only
    by_cases hwq : (_waitQueue (getSubmittedTransactions st1 none).length rc).2 = true
    · rw [if_pos hwq]
      cases hupd : updateTx st1
          { m1 with
            optNonce := some (jsOr m1.optNonce (getNonce st1 m1.fromAddr nn))
            nonce := jsOr m1.optNonce (getNonce st1 m1.fromAddr nn) }
          TxStatus.submitted with
      | none =>
        exact ⟨st1, m1, [], rfl, by simp, Or.inl rfl⟩
      | some q =>
        obtain ⟨st2, m3⟩ := q
        exact ⟨st1, m1,
          [SubmitEvent.markedSubmitted (jsOr m1.optNonce (getNonce st1 m1.fromAddr nn))],
          rfl, by simp, Or.inr ⟨hwq, _, rfl⟩⟩
    · rw [if_neg hwq]
      exact ⟨st1, m1, [], rfl, by simp, Or.inl rfl⟩

theorem submitClaim_backpressure (st : TxManagerState) (meta : TxRecord) (nn : Nat)
    (rc : List Nat) :
    (hasMarkedSubmitted (submitClaim st meta nn rc).1 = true →
      hasLowQueueCheck (submitClaim st meta nn rc).1 = true) ∧
    sleepsAreFixed (submitClaim st meta nn rc).1 = true ∧
    (hasQueueCheck (submitClaim st meta nn rc).1 = true →
      allocPrecedesWait (submitClaim st meta nn rc).1 = true) := by
  rcases submitClaim_fst_cases st meta nn rc with h | ⟨st1, m1, tail, _, h, htail⟩
  · rw [h]
    refine ⟨?_, rfl, ?_⟩
    · intro hcon; simp [hasMarkedSubmitted] at hcon
    · intro hcon; simp [hasQueueCheck] at hcon
  · rw [h]
    refine ⟨?_, ?_, ?_⟩
    · intro hm
      rcases htail with rfl | ⟨hwq, n2, rfl⟩
      · exfalso
        simp only [hasMarkedSubmitted, List.any_cons, List.any_append, List.any_nil] at hm
        have := _waitQueue_noMarked (getSubmittedTransactions st1 none).length rc
        simp only [hasMarkedSubmitted] at this
        simp [this] at hm
      · have := _waitQueue_low hwq
        simp only [hasLowQueueCheck, List.any_cons, List.any_append] at this ⊢
        simp [this]
    · rcases htail with rfl | ⟨hwq, n2, rfl⟩ <;>
        · have := _waitQueue_sleeps (getSubmittedTransactions st1 none).length rc
          simp only [sleepsAreFixed, List.all_cons, List.all_append] at this ⊢
          simp [this]
    · intro _
      rfl

theorem submitTx_fst_cases (st : TxManagerState) (meta : TxRecord) (nn : Nat)
    (rc : List Nat) (oc : Option ErrMsg) :
    (submitTx st meta nn rc oc).1 = (submitClaim st meta nn rc).1 ∨
    (submitTx st meta nn rc oc).1 = (submitClaim st meta nn rc).1 ++ [SubmitEvent.dispatched] := by
  unfold submitTx
  cases hc : submitClaim st meta nn rc with
  | mk evts r =>
    cases r with
    | none => exact Or.inl rfl
    | some p =>
      obtain ⟨st2, m2, e⟩ := p
      dsimp only
      cases oc with
      | none =>
        cases hf : _finalizeTx st2 m2 none with
        | none => exact Or.inr rfl
        | some q =>
          obtain ⟨st4, m4⟩ := q
          exact Or.inr rfl
      | some e2 =>
        cases hf : _finalizeTx
            { st2 with nonceInUse := _checkError st2.nonceInUse e2 m2.fromAddr m2.nonce }
            m2 (some e2) with
        | none => exact Or.inr rfl
        | some q =>
          obtain ⟨st4, m4⟩ := q
          exact Or.inr rfl

/-- C3, counterexample: with 100 records in the `submitted` state, a
further write submission still runs nonce allocation — the trace contains
the allocation event while every queue check observed a count at the cap,
and the submission then blocks (the claim instead requires the submission
not to reach nonce allocation until the count drops). -/
theorem queue_backpressure_counterexample :
    (getSubmittedTransactions st100 none).length = 100 ∧
      SubmitEvent.nonceAllocated 0 ∈ (submitTx st100 (metaFresh 2) 0 [] none).1 ∧
      hasLowQueueCheck (submitTx st100 (metaFresh 2) 0 [] none).1 = false ∧
      ((submitTx st100 (metaFresh 2) 0 [] none).2).isNone = true := by
  refine ⟨by decide, by decide, by decide, by decide⟩

/-- C3, amended: the queue governor gates the `submitted` transition, not
nonce allocation — `submitTx` runs `getNonce` first and only then blocks.
For every write submission: the record is marked `submitted` only if some
queue check observed a count below the cap of 100; every queue re-check
sleep is exactly 60 seconds; and whenever the queue was consulted at all,
the trace opens with `addTx` immediately followed by nonce allocation,
before any queue event. -/
theorem queue_backpressure_amended (st : TxManagerState) (meta : TxRecord) (nn : Nat)
    (rc : List Nat) (oc : Option ErrMsg) :
    (hasMarkedSubmitted (submitTx st meta nn rc oc).1 = true →
      hasLowQueueCheck (submitTx st meta nn rc oc).1 = true) ∧
    sleepsAreFixed (submitTx st meta nn rc oc).1 = true ∧
    (hasQueueCheck (submitTx st meta nn rc oc).1 = true →
      allocPrecedesWait (submitTx st meta nn rc oc).1 = true) := by
  obtain ⟨hA, hB, hC⟩ := submitClaim_backpressure st meta nn rc
  rcases submitTx_fst_cases st meta nn rc oc with h | h <;> rw [h]
  · exact ⟨hA, hB, hC⟩
  · refine ⟨?_, ?_, ?_⟩
    · intro hm
      simp only [hasMarkedSubmitted, hasLowQueueCheck, List.any_append, List.any_cons,
        List.any_nil] at hm ⊢
      simp only [hasMarkedSubmitted, hasLowQueueCheck] at hA
      rcases Bool.or_eq_true_iff.mp hm with h1 | h1
      · simp [hA h1]
      · simp at h1
    · simp only [sleepsAreFixed, List.all_append, List.all_cons, List.all_nil] at hB ⊢
      simp [hB]
    · intro hq
      simp only [hasQueueCheck, List.any_append, List.any_cons, List.any_nil] at hq
      simp only [hasQueueCheck] at hC
      have hq2 : (submitClaim st meta nn rc).1.any
          (fun e => match e with
            | SubmitEvent.queueCheck _ => true
            | _ => false) = true := by
        rcases Bool.or_eq_true_iff.mp hq with h1 | h1
        · exact h1
        · simp at h1
      have := hC hq2
      simp only [allocPrecedesWait] at this ⊢
      cases htr : (submitClaim st meta nn rc).1 with
      | nil => rw [htr] at this; simp [allocPrecedesWait] at this
      | cons a rest =>
        cases rest with
        | nil =>
          rw [htr] at this
          cases a <;> simp [allocPrecedesWait] at this
        | cons b rest2 =>
          rw [htr] at this
          cases a with
          | addTxStep =>
            cases b with
            | nonceAllocated n => rfl
            | addTxStep => simp [allocPrecedesWait] at this
            | queueCheck c => simp [allocPrecedesWait] at this
            | queueSleep s => simp [allocPrecedesWait] at this
            | markedSubmitted n => simp [allocPrecedesWait] at this
            | dispatched => simp [allocPrecedesWait] at this
          | nonceAllocated n => simp [allocPrecedesWait] at this
          | queueCheck c => simp [allocPrecedesWait] at this
          | queueSleep s => simp [allocPrecedesWait] at this
          | markedSubmitted n => simp [allocPrecedesWait] at this
          | dispatched => simp [allocPrecedesWait] at this

set_option maxRecDepth 4000 in
/-- Witness for C3 (amended): a blocked submission that proceeds after a
re-check observes a count of 50 has a below-cap queue check in its
trace. -/
theorem queue_backpressure_amended_witness :
    hasLowQueueCheck (submitTx st100 (metaFresh 2) 0 [50] none).1 = true :=
  (queue_backpressure_amended st100 (metaFresh 2) 0 [50] none).1 (by decide)

/-! ### The settled submission -/

theorem submitTx_some_elim {st : TxManagerState} {meta : TxRecord} {nn : Nat} {rc : List Nat}
    {oc : Option ErrMsg} {st1 : TxManagerState} {m1 : TxRecord} {e : Option ErrMsg}
    (h : (submitTx st meta nn rc oc).2 = some (st1, m1, e)) :
    e = oc ∧ m1 ∈ st1.tx ∧
      m1.status = some (settledStatus oc) ∧
      ∃ stA mA, addTx st meta = some (stA, mA) ∧ mA.optNonce = meta.optNonce ∧
        m1.nonce = jsOr meta.optNonce (getNonce stA mA.fromAddr nn) := by
  unfold submitTx at h
  cases hc : submitClaim st meta nn rc with
  | mk evts r =>
    rw [hc] at h
    cases r with
    | none => simp at h
    | some p =>
      obtain ⟨st2, m2, ret⟩ := p
      have hc2 : (submitClaim st meta nn rc).2 = some (st2, m2, ret) := by rw [hc]
      obtain ⟨stA, mA, hadd, hret, hm2, _⟩ := submitClaim_some hc2
      have hoptA : mA.optNonce = meta.optNonce := (addTx_some_fields hadd).2.1
      have hm2nonce : m2.nonce = jsOr meta.optNonce (getNonce stA mA.fromAddr nn) := by
        rw [hm2]
        dsimp only
        rw [hoptA, ← hret]
      dsimp only at h
      cases oc with
      | none =>
        cases hf : _finalizeTx st2 m2 none with
        | none => rw [hf] at h; simp at h
        | some q =>
          obtain ⟨st4, m4⟩ := q
          rw [hf] at h
          simp only [Option.some_inj, Prod.mk.injEq] at h
          obtain ⟨hst, hm, he⟩ := h
          have hf2 : updateTx st2 m2 TxStatus.confirmed = some (st4, m4) := hf
          obtain ⟨hm4, hmem4, _⟩ := updateTx_some hf2
          subst hst hm he
          refine ⟨rfl, hmem4, ?_, stA, mA, hadd, hoptA, ?_⟩
          · show m4.status = some TxStatus.confirmed
            rw [hm4]
          · show m4.nonce = _
            rw [hm4]
            exact hm2nonce
      | some e2 =>
        cases hf : _finalizeTx
            { st2 with nonceInUse := _checkError st2.nonceInUse e2 m2.fromAddr m2.nonce }
            m2 (some e2) with
        | none => rw [hf] at h; simp at h
        | some q =>
          obtain ⟨st4, m4⟩ := q
          rw [hf] at h
          simp only [Option.some_inj, Prod.mk.injEq] at h
          obtain ⟨hst, hm, he⟩ := h
          have hf2 : updateTx
              { st2 with nonceInUse := _checkError st2.nonceInUse e2 m2.fromAddr m2.nonce }
              m2 TxStatus.failed = some (st4, m4) := hf
          obtain ⟨hm4, hmem4, _⟩ := updateTx_some hf2
          subst hst hm he
          refine ⟨rfl, hmem4, ?_, stA, mA, hadd, hoptA, ?_⟩
          · show m4.status = some TxStatus.failed
            rw [hm4]
          · show m4.nonce = _
            rw [hm4]
            exact hm2nonce

theorem retrySubmit_some_elim {env : RetryEnv} {cfg : RetryCfg} {counter : Nat}
    {st : TxManagerState} {meta : TxRecord} {st1 : TxManagerState} {m1 : TxRecord}
    {e : Option ErrMsg}
    (h : retrySubmit env cfg counter st meta = some (st1, m1, e)) :
    e = env.outcomes counter ∧ m1 ∈ st1.tx ∧
      m1.status = some (settledStatus (env.outcomes counter)) ∧
      ∀ k, meta.optNonce = some k → k ≠ 0 → m1.nonce = k := by
  unfold retrySubmit at h
  obtain ⟨he, hmem, hstat, stA, mA, hadd, hoptA, hnonce⟩ := submitTx_some_elim h
  refine ⟨he, hmem, hstat, ?_⟩
  intro k hk hk0
  dsimp only at hnonce
  rw [hnonce, hk]
  unfold jsOr
  simp [hk0]

theorem confirmUpdate_confirmed {st1 : TxManagerState} {m1 : TxRecord}
    {st2 : TxManagerState} {m2 : TxRecord}
    (hmem : m1 ∈ st1.tx) (hcu : confirmUpdate st1 m1 = some (st2, m2)) :
    m2.status = some TxStatus.confirmed ∧ m2 ∈ st2.tx := by
  unfold confirmUpdate at hcu
  by_cases hst : (m1.status == some TxStatus.confirmed) = true
  · rw [if_pos hst] at hcu
    simp only [Option.some_inj, Prod.mk.injEq] at hcu
    obtain ⟨h1, h2⟩ := hcu
    subst h1 h2
    exact ⟨beq_iff_eq.mp hst, hmem⟩
  · rw [if_neg hst] at hcu
    obtain ⟨hm2, hmem2, _⟩ := updateTx_some hcu
    rw [hm2]
    exact ⟨rfl, hm2 ▸ hmem2⟩

/-! ### Claim C7 -/

theorem sendWithRetryAux_verify_ok (env : RetryEnv) (cfg : RetryCfg) :
    ∀ (fuel counter vcount : Nat) (st : TxManagerState) (meta : TxRecord),
      retryResultOk (sendWithRetryAux env cfg fuel counter vcount st meta) = true := by
  intro fuel
  induction fuel with
  | zero => intro counter vcount st meta; rfl
  | succ f ih =>
    intro counter vcount st meta
    unfold sendWithRetryAux
    cases hsub : retrySubmit env cfg counter st meta with
    | none => rfl
    | some p =>
      obtain ⟨st1, m1, err⟩ := p
      cases err with
      | none =>
        dsimp only
        cases hcu : confirmUpdate st1 m1 with
        | none => rfl
        | some q =>
          obtain ⟨st2a, m2a⟩ := q
          rfl
      | some msg =>
        dsimp only
        by_cases hv1 : env.vres vcount = true
        · rw [if_pos hv1]
          cases hcu : confirmUpdate st1 m1 with
          | none => rfl
          | some q =>
            obtain ⟨st2a, m2a⟩ := q
            obtain ⟨_, hmem1, _, _⟩ := retrySubmit_some_elim hsub
            obtain ⟨hstat2, hmem2⟩ := confirmUpdate_confirmed hmem1 hcu
            simp [retryResultOk, verifyAfterFailChk, verifyAfterSleepChk,
              noSubAfterVerifyTrueChk, hasVerifyTrue, isSubAttempt, hstat2, hmem2]
        · rw [if_neg hv1]
          by_cases hb : cfg.retry = counter
          · rw [if_pos hb]
            rfl
          · rw [if_neg hb]
            by_cases hv2 : env.vres (vcount + 1) = true
            · rw [if_pos hv2]
              cases hcu : confirmUpdate st1 m1 with
              | none => rfl
              | some q =>
                obtain ⟨st2a, m2a⟩ := q
                obtain ⟨_, hmem1, _, _⟩ := retrySubmit_some_elim hsub
                obtain ⟨hstat2, hmem2⟩ := confirmUpdate_confirmed hmem1 hcu
                simp [retryResultOk, verifyAfterFailChk, verifyAfterSleepChk,
                  noSubAfterVerifyTrueChk, hasVerifyTrue, isSubAttempt, hstat2, hmem2]
            · rw [if_neg hv2]
              cases hrec : sendWithRetryAux env cfg f (counter + 1) (vcount + 2)
                  { st1 with retries := st1.retries + 1 }
                  { m1 with optNonce := updateNonce msg m1.nonce } with
              | none => rfl
              | some r =>
                have hr := ih (counter + 1) (vcount + 2)
                  { st1 with retries := st1.retries + 1 }
                  { m1 with optNonce := updateNonce msg m1.nonce }
                rw [hrec] at hr
                exact hr

/-- C7: in the retry loop with a configured verify predicate, on every
run of `sendWithRetry` the verify predicate is invoked immediately after
each failed submission and again immediately after each backoff sleep;
once a verify invocation reports success, no further submission event
occurs, the run returns success and the record ends `confirmed` in the
store.  In particular (second conjunct), a mining timeout on attempt 0
with `retry: 1` and a verify predicate returning true yields a confirmed
record with exactly one submission. -/
theorem retry_verify_semantics :
    (∀ (env : RetryEnv) (cfg : RetryCfg) (st : TxManagerState) (meta : TxRecord),
      retryResultOk (sendWithRetry env cfg st meta) = true) ∧
    scenarioOk (sendWithRetry envScenario cfgRetryOne (mkManager 1) (metaFresh 1)) = true :=
  ⟨fun env cfg st meta => sendWithRetryAux_verify_ok env cfg (cfg.retry + 1) 0 0 st meta,
   by decide⟩

/-! ### Claim C6 -/

theorem reuseGuard_true {pending : Option (ErrMsg × Nat)} {nv : Nat}
    (h : ∀ msg n, pending = some (msg, n) → msg.notMinedWithin = true → n ≠ 0 → nv = n) :
    reuseGuard pending nv = true := by
  unfold reuseGuard
  cases pending with
  | none => rfl
  | some mn =>
    obtain ⟨msg0, n0⟩ := mn
    by_cases hc : (msg0.notMinedWithin && (n0 != 0)) = true
    · obtain ⟨h1, h2⟩ := Bool.and_eq_true_iff.mp hc
      have hnv : nv = n0 := h msg0 n0 rfl h1 (by simpa using h2)
      simp [hc, hnv]
    · rw [Bool.not_eq_true] at hc
      simp [hc]

theorem sendWithRetryAux_reuseGo (env : RetryEnv) (cfg : RetryCfg) :
    ∀ (fuel counter vcount : Nat) (st : TxManagerState) (meta : TxRecord)
      (res : RetryResult),
      sendWithRetryAux env cfg fuel counter vcount st meta = some res →
      ∀ pending : Option (ErrMsg × Nat),
        (∀ msg n, pending = some (msg, n) → msg.notMinedWithin = true → n ≠ 0 →
          meta.optNonce = some n) →
        reuseChkGo pending res.trace = true := by
  intro fuel
  induction fuel with
  | zero =>
    intro counter vcount st meta res h
    simp [sendWithRetryAux] at h
  | succ f ih =>
    intro counter vcount st meta res h pending hp
    unfold sendWithRetryAux at h
    cases hsub : retrySubmit env cfg counter st meta with
    | none => rw [hsub] at h; simp at h
    | some p =>
      obtain ⟨st1, m1, err⟩ := p
      rw [hsub] at h
      obtain ⟨_, _, _, hnonce⟩ := retrySubmit_some_elim hsub
      have hnv : ∀ msg n, pending = some (msg, n) → msg.notMinedWithin = true → n ≠ 0 →
          m1.nonce = n := by
        intro msg n hpend h1 h2
        exact hnonce n (hp msg n hpend h1 h2) h2
      cases err with
      | none =>
        dsimp only at h
        cases hcu : confirmUpdate st1 m1 with
        | none => rw [hcu] at h; simp at h
        | some q =>
          obtain ⟨st2a, m2a⟩ := q
          rw [hcu] at h
          simp only [Option.map_some', Option.some_inj] at h
          rw [← h]
          show (reuseGuard pending m1.nonce && true) = true
          rw [reuseGuard_true hnv, Bool.and_self]
      | some msg =>
        dsimp only at h
        by_cases hv1 : env.vres vcount = true
        · rw [if_pos hv1] at h
          cases hcu : confirmUpdate st1 m1 with
          | none => rw [hcu] at h; simp at h
          | some q =>
            obtain ⟨st2a, m2a⟩ := q
            rw [hcu] at h
            simp only [Option.map_some', Option.some_inj] at h
            rw [← h]
            show (reuseGuard pending m1.nonce &&
              reuseChkGo (some (msg, m1.nonce)) [RetryEvent.verifyCall vcount true]) = true
            rw [reuseGuard_true hnv]
            rfl
        · rw [if_neg hv1] at h
          by_cases hb : cfg.retry = counter
          · rw [if_pos hb] at h
            simp only [Option.some_inj] at h
            rw [← h]
            show (reuseGuard pending m1.nonce &&
              reuseChkGo (some (msg, m1.nonce)) [RetryEvent.verifyCall vcount false]) = true
            rw [reuseGuard_true hnv]
            rfl
          · rw [if_neg hb] at h
            by_cases hv2 : env.vres (vcount + 1) = true
            · rw [if_pos hv2] at h
              cases hcu : confirmUpdate st1 m1 with
              | none => rw [hcu] at h; simp at h
              | some q =>
                obtain ⟨st2a, m2a⟩ := q
                rw [hcu] at h
                simp only [Option.map_some', Option.some_inj] at h
                rw [← h]
                show (reuseGuard pending m1.nonce &&
                  reuseChkGo (some (msg, m1.nonce))
                    [RetryEvent.verifyCall vcount false,
                     RetryEvent.slept (cfg.delay * (counter + 1)),
                     RetryEvent.verifyCall (vcount + 1) true]) = true
                rw [reuseGuard_true hnv]
                rfl
            · rw [if_neg hv2] at h
              cases hrec : sendWithRetryAux env cfg f (counter + 1) (vcount + 2)
                  { st1 with retries := st1.retries + 1 }
                  { m1 with optNonce := updateNonce msg m1.nonce } with
              | none => rw [hrec] at h; simp at h
              | some r =>
                rw [hrec] at h
                simp only [Option.map_some', Option.some_inj] at h
                have hrest := ih (counter + 1) (vcount + 2)
                  { st1 with retries := st1.retries + 1 }
                  { m1 with optNonce := updateNonce msg m1.nonce } r hrec
                  (some (msg, m1.nonce))
                  (by
                    intro msg2 n2 hpend h1 h2
                    simp only [Option.some_inj, Prod.mk.injEq] at hpend
                    obtain ⟨he1, he2⟩ := hpend
                    subst he1 he2
                    show updateNonce msg m1.nonce = some m1.nonce
                    unfold updateNonce
                    rw [if_pos h1])
                rw [← h]
                show (reuseGuard pending m1.nonce &&
                    reuseChkGo (some (msg, m1.nonce))
                      (RetryEvent.verifyCall vcount false
                        :: RetryEvent.slept (cfg.delay * (counter + 1))
                        :: RetryEvent.verifyCall (vcount + 1) false :: r.trace)) = true
                rw [reuseGuard_true hnv]
                show reuseChkGo (some (msg, m1.nonce))
                  (RetryEvent.verifyCall vcount false
                    :: RetryEvent.slept (cfg.delay * (counter + 1))
                    :: RetryEvent.verifyCall (vcount + 1) false :: r.trace) = true
                show reuseChkGo (some (msg, m1.nonce)) r.trace = true
                exact hrest

/-- C6, counterexample: the claim says that after a mining-timeout
failure the next submission reuses the same nonce.  In a run whose first
attempt carries nonce 0 and fails with the mining-timeout message, the
second attempt uses nonce 1 — the reuse write
`options.nonce = updateNonce(...)` stores 0, which the subsequent
`options.nonce || nextNonce` treats as absent (and the exclusion set now
holds 0, so the coordinator moves past it). -/
theorem retry_zero_nonce_counterexample :
    ((sendWithRetry envZeroNonce cfgRetryOne (mkManager 1) (metaFresh 1)).map
        (fun r => r.trace)) =
      some [RetryEvent.subAttempt 0 0 (some msgTimeout), RetryEvent.verifyCall 0 false,
        RetryEvent.slept 10, RetryEvent.verifyCall 1 false,
        RetryEvent.subAttempt 1 1 none] ∧
      msgTimeout.notMinedWithin = true ∧ (1 : Nat) ≠ 0 :=
  ⟨by decide, rfl, by decide⟩

/-- C6, amended: after a failed attempt whose error message contains the
mining-timeout pattern, the next submission reuses the same nonce
provided that nonce is non-zero (first conjunct, over every run of the
retry loop: `reuseChk`); a zero nonce is treated as absent by
`options.nonce || nextNonce`, so the next submission gets a fresh nonce;
and after any other error the nonce option is cleared to `null`, so the
next submission obtains a fresh nonce from the nonce coordinator (second
conjunct, the composition of `updateNonce` with the nonce fallback of
`submitTx`). -/
theorem retry_nonce_reuse_amended :
    (∀ (env : RetryEnv) (cfg : RetryCfg) (st : TxManagerState) (meta : TxRecord),
      reuseOk (sendWithRetry env cfg st meta) = true) ∧
    (∀ (msg : ErrMsg) (n : Nat) (st : TxManagerState) (a nn : Nat),
      (msg.notMinedWithin = true → n ≠ 0 →
        jsOr (updateNonce msg n) (getNonce st a nn) = n) ∧
      (msg.notMinedWithin = true →
        jsOr (updateNonce msg 0) (getNonce st a nn) = getNonce st a nn) ∧
      (msg.notMinedWithin = false →
        updateNonce msg n = none ∧
          jsOr (updateNonce msg n) (getNonce st a nn) = getNonce st a nn)) := by
  constructor
  · intro env cfg st meta
    unfold reuseOk
    cases hrun : sendWithRetry env cfg st meta with
    | none => rfl
    | some res =>
      exact sendWithRetryAux_reuseGo env cfg (cfg.retry + 1) 0 0 st meta res hrun none
        (by intro msg n hpend; simp at hpend)
  · intro msg n st a nn
    refine ⟨?_, ?_, ?_⟩
    · intro h1 h2
      unfold updateNonce jsOr
      rw [if_pos h1]
      simp [h2]
    · intro h1
      unfold updateNonce jsOr
      rw [if_pos h1]
      simp
    · intro h1
      unfold updateNonce jsOr
      rw [if_neg (by simp [h1])]
      exact ⟨rfl, rfl⟩

/-- Witness for C6 (amended): the nonce-update composition at a concrete
input — after a mining timeout with nonce 7, the next submission reuses
7. -/
theorem retry_nonce_reuse_amended_witness :
    jsOr (updateNonce msgTimeout 7) (getNonce (mkManager 0) 1 0) = 7 :=
  (retry_nonce_reuse_amended.2 msgTimeout 7 (mkManager 0) 1 0).1 rfl (by decide)

end EthSci
